import Mathlib

/-!
Verification of the Weblate branch-synchronization GitHub action.

The development shallowly embeds the two source files of the repository:

* `src/utils.ts` — resource discovery (`resolveComponents`): scanning a
  direct directory path or a glob pattern for translation keyset
  directories.
* `src/index.ts` — the three mode handlers (`syncMaster`,
  `validatePullRequest`, `removeBranch`), modelled as pure functions from
  an environment (the responses of the Weblate platform and of the
  filesystem) to a trace of observable events.  A JavaScript runtime
  error (dereferencing `undefined`) is modelled as `Except.error`.

Strings are Lean `String`s.  The JavaScript string operations used by the
source (`split(path.sep)`, `includes`, `startsWith('.')`, Node
`path.join`, `path.dirname`, `path.basename`) are modelled by structurally
recursive functions over `String.data` so that every definition evaluates
by kernel reduction.
-/

/-! ## Path helpers (Node `path` module and JS string operations) -/

/-- JavaScript `dir.split(path.sep)` on a POSIX system: split the
character list on `'/'`.  `splitCharsOnSlash [] = [[]]`, matching
`"".split("/") = [""]`. -/
def splitCharsOnSlash : List Char → List (List Char)
  | [] => [[]]
  | c :: rest =>
    let r := splitCharsOnSlash rest
    if c = '/' then [] :: r else (c :: r.headD []) :: r.tail

/-- JavaScript `s.split("/")` for a Lean `String`. -/
def splitOnSlash (s : String) : List String :=
  (splitCharsOnSlash s.data).map String.mk

/-- JavaScript `s.includes(c)` for a single character. -/
def containsChar (s : String) (c : Char) : Bool :=
  s.data.contains c

/-- JavaScript `s.startsWith(".")`. -/
def jsStartsWithDot (s : String) : Bool :=
  match s.data with
  | c :: _ => c = '.'
  | [] => false

/-- Join character-level path segments with `'/'`. -/
def renderChars : List (List Char) → List Char
  | [] => []
  | [s] => s
  | s :: rest => s ++ '/' :: renderChars rest

/-- Render a list of path segments back into a `'/'`-separated string. -/
def renderPath (segs : List String) : String :=
  String.mk (renderChars (segs.map String.data))

/-- One step of Node path normalization over segments of a relative path:
drop empty and `"."` segments and resolve `".."` against the
accumulator. -/
def normStep (acc : List String) (s : String) : List String :=
  if s == "" || s == "." then acc
  else if s == ".." then
    match acc.getLast? with
    | some t => if t == ".." then acc ++ [".."] else acc.dropLast
    | none => [".."]
  else acc ++ [s]

/-- Node path normalization of the segments of a relative path. -/
def normSegs (segs : List String) : List String :=
  segs.foldl normStep []

/-- Node `path.join(parts...)` for relative POSIX paths: split every part
on `'/'`, normalize the concatenated segment list and rejoin with `'/'`.
An empty result renders as `"."`. -/
def pathJoin (parts : List String) : String :=
  let segs := normSegs ((parts.map splitOnSlash).flatten)
  if segs = [] then "." else renderPath segs

/-- Node `path.posix.dirname`: everything before the last `'/'` that
precedes the basename (trailing slashes ignored); `"."` when there is no
directory part, `"/"` for root-only paths. -/
def dirname (p : String) : String :=
  let r1 := p.data.reverse.dropWhile (· = '/')
  let r2 := (r1.dropWhile (· ≠ '/')).tail
  if r2.isEmpty then (if p.startsWith "/" then "/" else ".") else String.mk r2.reverse

/-- Node `path.posix.basename`: the last path component, ignoring
trailing slashes. -/
def basename (p : String) : String :=
  let r1 := p.data.reverse.dropWhile (· = '/')
  String.mk ((r1.takeWhile (· ≠ '/')).reverse)

/-! ## Resource discovery (`src/utils.ts`, `resolveComponents`) -/

/-- Type `ComponentInCode` from `src/utils.ts`. -/
structure ComponentInCode where
  name : String
  source : String
  fileMask : String
deriving Repr, DecidableEq

/-- One entry of a `fs.readdir(..., {withFileTypes: true})` listing. -/
structure Dirent where
  name : String
  isDir : Bool
deriving Repr, DecidableEq

/-- Source `src/utils.ts` lines 29–32: a keysets path is treated as a glob
pattern when it contains `*`, `?` or `[`. -/
def isGlobPattern (keysetsPath : String) : Bool :=
  containsChar keysetsPath '*' || containsChar keysetsPath '?' ||
    containsChar keysetsPath '['

/-- Source `src/utils.ts` lines 56–65: the prefix extracted from a glob-matched
directory.  Split the directory on the path separator; if a segment
`"projects"` occurs and is not last, take the segment after it, otherwise
take the second-to-last segment, falling back (when that is missing or
empty, JavaScript falsiness) to `path.basename(path.dirname(dir))`. -/
def parentDirName (dir : String) : String :=
  let pathParts := splitOnSlash dir
  let fallback :=
    let cand := if 2 ≤ pathParts.length then pathParts.getD (pathParts.length - 2) "" else ""
    if cand != "" then cand else basename (dirname dir)
  match pathParts.findIdx? (fun s => s == "projects") with
  | some i => if i + 1 < pathParts.length then pathParts.getD (i + 1) "" else fallback
  | none => fallback

/-- Source `src/utils.ts` lines 67–78: the component groups produced from one
glob-matched directory: one group per non-hidden immediate subdirectory,
prefixed with `parentDirName`. -/
def globDirComponents (mainLanguage dir : String) (dirents : List Dirent) :
    List ComponentInCode :=
  let parent := parentDirName dir
  (dirents.filter fun d => d.isDir && !jsStartsWithDot d.name).map fun d =>
    { name := parent ++ "_" ++ d.name
    , source := pathJoin [dir, d.name, mainLanguage ++ ".json"]
    , fileMask := pathJoin [dir, d.name, "*.json"] }

/-- A glob match together with the outcome of reading it
(`fs.readdir` result or a thrown error). -/
structure MatchedDir where
  dir : String
  contents : Except String (List Dirent)

/-- The warning logged at `src/utils.ts` line 89 when a matched directory
cannot be read. -/
def readFailureWarning (dir err : String) : String :=
  "Failed to read directory " ++ dir ++ ": " ++ err

/-- Source `src/utils.ts` lines 49–91: fold over the glob matches, appending the
groups of readable directories and a warning for each unreadable one. -/
def resolveComponentsGlob (mainLanguage : String) (dirs : List MatchedDir) :
    List ComponentInCode × List String :=
  dirs.foldl
    (fun acc md =>
      match md.contents with
      | .ok dirents => (acc.1 ++ globDirComponents mainLanguage md.dir dirents, acc.2)
      | .error e => (acc.1, acc.2 ++ [readFailureWarning md.dir e]))
    ([], [])

/-- Source `src/utils.ts` lines 94–118: the direct-path branch of
`resolveComponents`: one group per non-hidden immediate subdirectory,
named after it verbatim. -/
def resolveComponentsDirect (keysetsPath mainLanguage : String)
    (dirents : List Dirent) : List ComponentInCode :=
  (dirents.filter fun d => d.isDir && !jsStartsWithDot d.name).map fun d =>
    { name := d.name
    , source := pathJoin [keysetsPath, d.name, mainLanguage ++ ".json"]
    , fileMask := pathJoin [keysetsPath, d.name, "*.json"] }

/-- The filesystem as observed by `resolveComponents`: the glob matches
(with their readdir outcomes) and the readdir outcome of the direct
path. -/
structure FileSystem where
  globMatches : List MatchedDir
  directDirents : Except String (List Dirent)

/-- Function `resolveComponents` of `src/utils.ts`: glob branch never throws and also
returns the recorded warnings; the direct branch propagates a readdir
failure (no `try`/`catch` around it in the source). -/
def resolveComponents (fsys : FileSystem) (keysetsPath mainLanguage : String) :
    Except String (List ComponentInCode × List String) :=
  if isGlobPattern keysetsPath then
    .ok (resolveComponentsGlob mainLanguage fsys.globMatches)
  else
    match fsys.directDirents with
    | .ok dirents => .ok (resolveComponentsDirect keysetsPath mainLanguage dirents, [])
    | .error e => .error e

/-! ## Mode handlers (`src/index.ts`) -/

/-- The configuration fields consumed by the mode handlers. -/
structure Configuration where
  branchName : String
  masterBranch : String
  pullRequestNumber : Nat
  gitRepo : String
  project : String
deriving Repr, DecidableEq

/-- Result of `weblate.createCategoryForBranch`. -/
structure WeblateCategory where
  id : Nat
  slug : String
  wasRecentlyCreated : Bool
deriving Repr, DecidableEq

/-- Result of `weblate.findCategoryForBranch`. -/
structure FoundCategory where
  id : Nat
  slug : String
deriving Repr, DecidableEq

/-- A Weblate component as returned by the platform. -/
structure WeblateComponent where
  name : String
  slug : String
  filemask : String
  template : String
  linked_component : Option String
deriving Repr, DecidableEq

/-- Result of `getComponentRepositoryErrors` (`src/lib/logic`). -/
structure RepositoryErrors where
  mergeFailureError : Option String
  needsCommitError : Option String
  needsPushError : Option String
deriving Repr, DecidableEq

/-- The arguments of a `weblate.createComponent` call that the claims
observe.  `updateIfExist = none` models a call that does not pass the
field at all. -/
structure CreateComponentArgs where
  name : String
  fileMask : String
  repo : String
  branch : Option String
  source : String
  updateIfExist : Option Bool
deriving Repr, DecidableEq

/-- Observable actions of a mode-handler run.  `console.log` output is
not modelled; `console.warn`, PR comments and `setFailed` are. -/
inductive Event where
  | createCategory (branchName : String)
  | pullRemote (categorySlug : String)
  | resolveComponentsCall
  | createComponent (args : CreateComponentArgs)
  | getMainComponent (categoryId : Nat)
  | getComponentsInCategory (categoryId : Nat)
  | waitComponentsTasks (componentNames : List String) (categorySlug : String)
  | removeMissingComponents (componentNamesInCode : List String)
  | getRepositoryErrors (componentName : String)
  | pullComponentRemote (componentName : String)
  | findCategory (branchName : String)
  | removeCategory (categoryId : Nat)
  | warn (message : String)
  | comment (message : String)
  | setFailed (message : String)
deriving Repr, DecidableEq

/-- The `weblate://<project>/<categorySlug>/<componentSlug>` internal repo
reference (`src/index.ts` lines 75 and 174 and 245). -/
def weblateRepoUrl (project categorySlug componentSlug : String) : String :=
  "weblate://" ++ project ++ "/" ++ categorySlug ++ "/" ++ componentSlug

/-- The component object Weblate returns from `createComponent`: it
echoes the requested name; the platform assigns the slug. -/
def createdComponent (slugOf : String → String) (args : CreateComponentArgs) :
    WeblateComponent :=
  { name := args.name, slug := slugOf args.name, filemask := args.fileMask
  , template := args.source, linked_component := none }

/-- The `console.warn` message of `src/index.ts` lines 115–118. -/
def syncMasterNeedsCommitWarning : String :=
  "SYNC_MASTER: Weblate main branch has uncommitted changes. " ++
    "Translators may be actively working on the branch."

/-- The `setFailed` message of `src/index.ts` lines 122–128. -/
def syncMasterNeedsPushMessage : String :=
  "SYNC_MASTER: Weblate main branch has unpushed commits. " ++
    "These commits must be pushed to the repository before PR validation " ++
    "will work correctly."

/-- The JavaScript runtime error raised when `resolveComponents` returns
an empty array and `firstComponent.name` dereferences `undefined`. -/
def undefinedComponentError : String :=
  "TypeError: cannot read properties of undefined (reading name)"

/-- Environment of one `syncMaster` run: the responses the Weblate
platform and the filesystem give to each call the handler makes.
`categoryComponents` is what `getComponentsInCategory` returns for the
category after the creation step. -/
structure SyncMasterEnv where
  category : WeblateCategory
  pullMergeFailure : Option String
  componentsInCode : List ComponentInCode
  componentSlug : String → String
  mainComponentInCategory : Option WeblateComponent
  categoryComponents : List WeblateComponent
  repositoryErrors : RepositoryErrors

/-- Source `src/index.ts` lines 50–61: the arguments of the first (VCS-owning)
`createComponent` call of `syncMaster`. -/
def firstCreateArgsMaster (config : Configuration) (c : ComponentInCode) :
    CreateComponentArgs :=
  { name := c.name, fileMask := c.fileMask, repo := config.gitRepo
  , branch := some config.branchName, source := c.source, updateIfExist := none }

/-- Source `src/index.ts` lines 43–107: the events of one `syncMaster` run from
component resolution through the repository health query, for a
destructured `componentsInCode = firstComponent :: otherComponents`:
create the first component bound to the git repo, query the main
component, create the others linked to it, fetch the full category
component set, barrier-wait on all of its names, remove the components
missing from code, then query repository health of the main component. -/
def syncMasterBody (config : Configuration) (env : SyncMasterEnv)
    (firstComponent : ComponentInCode) (otherComponents : List ComponentInCode) :
    List Event :=
  let cat := env.category
  let firstArgs := firstCreateArgsMaster config firstComponent
  let firstWeblateComponent := createdComponent env.componentSlug firstArgs
  let mainComponent := env.mainComponentInCategory.getD firstWeblateComponent
  let otherArgs := otherComponents.map fun c =>
    ({ name := c.name, fileMask := c.fileMask
     , repo := weblateRepoUrl config.project cat.slug mainComponent.slug
     , branch := none, source := c.source, updateIfExist := none } :
      CreateComponentArgs)
  [Event.resolveComponentsCall, Event.createComponent firstArgs,
      Event.getMainComponent cat.id] ++
    otherArgs.map Event.createComponent ++
    [Event.getComponentsInCategory cat.id,
     Event.waitComponentsTasks (env.categoryComponents.map fun c => c.name) cat.slug,
     Event.removeMissingComponents
       ((firstComponent :: otherComponents).map fun c => c.name),
     Event.getRepositoryErrors mainComponent.name]

/-- Source `src/index.ts` lines 109–129: the outcome actions of `syncMaster`
after the health query: fail on a merge failure, otherwise warn on
uncommitted changes and fail on unpushed commits. -/
def syncMasterTail (re : RepositoryErrors) : List Event :=
  match re.mergeFailureError with
  | some m => [Event.setFailed m]
  | none =>
    (if re.needsCommitError.isSome then [Event.warn syncMasterNeedsCommitWarning]
      else []) ++
      (if re.needsPushError.isSome then [Event.setFailed syncMasterNeedsPushMessage]
        else [])

/-- Source `src/index.ts` lines 43–129: `syncMaster` from component resolution
onward (shared by both category-creation branches).  An empty
`resolveComponents` result crashes on `firstComponent.name`. -/
def syncMasterRest (config : Configuration) (env : SyncMasterEnv)
    (t0 : List Event) : Except String (List Event) :=
  match env.componentsInCode with
  | [] => .error undefinedComponentError
  | firstComponent :: otherComponents =>
    .ok (t0 ++ syncMasterBody config env firstComponent otherComponents ++
      syncMasterTail env.repositoryErrors)

/-- Source `src/index.ts` lines 20–130: the `sync_master` mode handler. -/
def syncMaster (config : Configuration) (env : SyncMasterEnv) :
    Except String (List Event) :=
  let cat := env.category
  let t0 := [Event.createCategory config.branchName]
  if cat.wasRecentlyCreated then
    syncMasterRest config env t0
  else
    let t1 := t0 ++ [Event.pullRemote cat.slug]
    match env.pullMergeFailure with
    | some m => .ok (t1 ++ [Event.setFailed m])
    | none => syncMasterRest config env t1

/-- PR-suffixed name: `` `${base}__${config.pullRequestNumber}` ``. -/
def prName (config : Configuration) (base : String) : String :=
  base ++ "__" ++ toString config.pullRequestNumber

/-- The `setFailed` message of `src/index.ts` line 155. -/
def masterNotFoundMessage (config : Configuration) : String :=
  "Not found category for branch " ++ config.masterBranch

/-- Environment of one `validatePullRequest` run.  `categoryComponents`
is the full current component set of the PR category on the platform
(pre-existing plus created); the handler itself never queries it, which
is exactly the behaviour under scrutiny in the barrier-coverage claim. -/
structure ValidatePrEnv where
  category : WeblateCategory
  masterCategory : Option FoundCategory
  masterComponents : List WeblateComponent
  pullMergeFailure : Option String
  componentsInCode : List ComponentInCode
  componentSlug : String → String
  categoryComponents : List WeblateComponent
  repositoryErrors : RepositoryErrors
  untranslatedError : Option String

/-- Source `src/index.ts` lines 221–234: the arguments of the first
(VCS-owning) `createComponent` call of `validatePullRequest`. -/
def prFirstArgs (config : Configuration) (cat : WeblateCategory)
    (c : ComponentInCode) : CreateComponentArgs :=
  { name := prName config c.name, fileMask := c.fileMask
  , repo := config.gitRepo, branch := some config.branchName
  , source := c.source, updateIfExist := some cat.wasRecentlyCreated }

/-- Source `src/index.ts` lines 239–250: the arguments of the linked
`createComponent` calls of `validatePullRequest`. -/
def prOtherArgs (config : Configuration) (cat : WeblateCategory)
    (firstSlug : String) (c : ComponentInCode) : CreateComponentArgs :=
  { name := prName config c.name, fileMask := c.fileMask
  , repo := weblateRepoUrl config.project cat.slug firstSlug
  , branch := none, source := c.source
  , updateIfExist := some cat.wasRecentlyCreated }

/-- Source `src/index.ts` lines 210–287: the events of one `validatePullRequest`
run from component resolution through the repository health query:
create the PR-suffixed components (the first bound to the git repo, the
rest linked to it), pull remote changes when the category pre-existed,
barrier-wait on the names created by this run, remove the components
missing from code, then query repository health. -/
def validatePrBody (config : Configuration) (env : ValidatePrEnv)
    (firstComponent : ComponentInCode) (otherComponents : List ComponentInCode) :
    List Event :=
  let cat := env.category
  let firstArgs := prFirstArgs config cat firstComponent
  let firstWeblateComponent := createdComponent env.componentSlug firstArgs
  let otherArgs := otherComponents.map
    (prOtherArgs config cat firstWeblateComponent.slug)
  [Event.resolveComponentsCall, Event.createComponent firstArgs] ++
    otherArgs.map Event.createComponent ++
    (if cat.wasRecentlyCreated then []
      else [Event.pullComponentRemote firstWeblateComponent.name]) ++
    [Event.waitComponentsTasks (firstArgs.name :: otherArgs.map fun a => a.name)
        cat.slug,
     Event.removeMissingComponents
       ((firstComponent :: otherComponents).map fun c => c.name),
     Event.getRepositoryErrors firstWeblateComponent.name]

/-- Source `src/index.ts` lines 289–337: the outcome actions of
`validatePullRequest` after the health query: the first present
condition among merge failure, uncommitted changes, unpushed commits and
untranslated components posts a PR comment and fails the run. -/
def validatePrTail (re : RepositoryErrors) (untranslated : Option String) :
    List Event :=
  match re.mergeFailureError with
  | some m => [Event.comment m, Event.setFailed m]
  | none =>
    match re.needsCommitError with
    | some m => [Event.comment m, Event.setFailed m]
    | none =>
      match re.needsPushError with
      | some m => [Event.comment m, Event.setFailed m]
      | none =>
        match untranslated with
        | some m => [Event.comment m, Event.setFailed m]
        | none => []

/-- Source `src/index.ts` lines 210–338: `validatePullRequest` from component
resolution onward (shared by both category-creation branches).  An empty
`resolveComponents` result crashes on `firstComponent.name`. -/
def validatePrRest (config : Configuration) (env : ValidatePrEnv)
    (t0 : List Event) : Except String (List Event) :=
  match env.componentsInCode with
  | [] => .error undefinedComponentError
  | firstComponent :: otherComponents =>
    .ok (t0 ++ validatePrBody config env firstComponent otherComponents ++
      validatePrTail env.repositoryErrors env.untranslatedError)

/-- Source `src/index.ts` lines 132–338: the `validate_pull_request` mode
handler. -/
def validatePullRequest (config : Configuration) (env : ValidatePrEnv) :
    Except String (List Event) :=
  let cat := env.category
  let t0 := [Event.createCategory (prName config config.branchName)]
  if cat.wasRecentlyCreated then
    match env.masterCategory with
    | none => .ok (t0 ++ [Event.findCategory config.masterBranch,
        Event.setFailed (masterNotFoundMessage config)])
    | some masterCat =>
      let mainMasterSlug :=
        (((env.masterComponents.find? fun c => c.linked_component.isNone).orElse
          fun _ => env.masterComponents.head?).map fun c => c.slug).getD ""
      let bootstrapArgs := env.masterComponents.map fun c =>
        ({ name := prName config c.name, fileMask := c.filemask
         , repo := weblateRepoUrl config.project masterCat.slug mainMasterSlug
         , branch := none, source := c.template, updateIfExist := none } :
          CreateComponentArgs)
      let t1 := t0 ++ [Event.findCategory config.masterBranch,
        Event.getComponentsInCategory masterCat.id] ++
        bootstrapArgs.map Event.createComponent ++
        [Event.waitComponentsTasks (bootstrapArgs.map fun a => a.name) cat.slug]
      validatePrRest config env t1
  else
    let t1 := t0 ++ [Event.pullRemote cat.slug]
    match env.pullMergeFailure with
    | some m => .ok (t1 ++ [Event.comment m, Event.setFailed m])
    | none => validatePrRest config env t1

/-- A category as stored on the platform, for the `removeBranch`
state-transition model. -/
structure PlatformCategory where
  branchName : String
  id : Nat
deriving Repr, DecidableEq

/-- The platform state observed and mutated by `removeBranch`: the
categories that currently exist. -/
structure PlatformState where
  categories : List PlatformCategory
deriving Repr, DecidableEq

/-- Source `src/index.ts` lines 340–356: the `remove_branch` mode handler as a
transition on the platform state: look up the category named
`<branch>__<prNumber>`; when absent do nothing, otherwise
`removeCategory` deletes it (by id). -/
def removeBranch (config : Configuration) (st : PlatformState) :
    PlatformState × List Event :=
  let branch := prName config config.branchName
  match st.categories.find? (fun c => c.branchName == branch) with
  | none => (st, [Event.findCategory branch])
  | some c =>
    ({ categories := st.categories.filter fun x => x.id != c.id },
      [Event.findCategory branch, Event.removeCategory c.id])

/-! ## Trace predicates -/

/-- The event trace of a run, empty for a crashed run. -/
def traceOf (r : Except String (List Event)) : List Event :=
  match r with
  | .ok t => t
  | .error _ => []

/-- Does the trace mark the run failed? -/
def hasSetFailed (t : List Event) : Bool :=
  t.any fun e => match e with
    | Event.setFailed _ => true
    | _ => false

/-- Does the trace log a warning? -/
def hasWarn (t : List Event) : Bool :=
  t.any fun e => match e with
    | Event.warn _ => true
    | _ => false

/-- Does the trace post a PR comment? -/
def hasComment (t : List Event) : Bool :=
  t.any fun e => match e with
    | Event.comment _ => true
    | _ => false

/-- Scan a trace: every `removeMissingComponents` event must be preceded
by some `waitComponentsTasks` event whose name list contains every name
in `fullNames`.  `seen` records whether such a wait has occurred. -/
def removalCoveredAux (fullNames : List String) : List Event → Bool → Bool
  | [], _ => true
  | Event.waitComponentsTasks ns _ :: rest, seen =>
    removalCoveredAux fullNames rest (seen || fullNames.all fun n => ns.contains n)
  | Event.removeMissingComponents _ :: rest, seen =>
    seen && removalCoveredAux fullNames rest seen
  | _ :: rest, seen => removalCoveredAux fullNames rest seen

/-- Every removal step of the trace happens after a task barrier covering
all of `fullNames`. -/
def removalCovered (fullNames : List String) (t : List Event) : Bool :=
  removalCoveredAux fullNames t false

/-- Scan a trace: every `setFailed` message must have been posted as a PR
comment earlier in the trace.  `seen` collects the comment bodies. -/
def failsCommentedAux : List Event → List String → Bool
  | [], _ => true
  | Event.comment m :: rest, seen => failsCommentedAux rest (m :: seen)
  | Event.setFailed m :: rest, seen => seen.contains m && failsCommentedAux rest seen
  | _ :: rest, seen => failsCommentedAux rest seen

/-- Every failure of the trace was mirrored to a PR comment first. -/
def failsCommented (t : List Event) : Bool :=
  failsCommentedAux t []

/-- Every `createComponent` call of the trace either omits
`updateIfExist` or passes it as `b`. -/
def updateFlagsAre (b : Bool) (t : List Event) : Bool :=
  t.all fun e => match e with
    | Event.createComponent a => a.updateIfExist == none || a.updateIfExist == some b
    | _ => true

/-- The trace contains no user-visible outcome action (no warning, no
comment, no failure). -/
def outputActionFree (t : List Event) : Bool :=
  t.all fun e => match e with
    | Event.warn _ => false
    | Event.comment _ => false
    | Event.setFailed _ => false
    | _ => true

/-- Is this event a `removeCategory` call? -/
def isRemoveCategory (e : Event) : Bool :=
  match e with
  | Event.removeCategory _ => true
  | _ => false

/-! ## Concrete fixtures for counterexamples and witnesses -/

/-- Example configuration. -/
def cfgEx : Configuration :=
  { branchName := "feature", masterBranch := "master", pullRequestNumber := 7
  , gitRepo := "github.com/acme/app", project := "app" }

/-- Example discovered component. -/
def compA : ComponentInCode :=
  { name := "common", source := "keysets/common/en.json"
  , fileMask := "keysets/common/*.json" }

/-- Second example discovered component. -/
def compB : ComponentInCode :=
  { name := "billing", source := "keysets/billing/en.json"
  , fileMask := "keysets/billing/*.json" }

/-- Clean repository health result. -/
def noErrors : RepositoryErrors :=
  { mergeFailureError := none, needsCommitError := none, needsPushError := none }

/-- A platform component with slug equal to its name. -/
def wcomp (n : String) : WeblateComponent :=
  { name := n, slug := n, filemask := n ++ "/*.json", template := n ++ "/en.json"
  , linked_component := none }

/-- PR environment with a pre-existing category that still holds a stale
component `stale__7` (not backed by code) next to the run-touched
`common__7`. -/
def envPrStale : ValidatePrEnv :=
  { category := { id := 10, slug := "feature__7", wasRecentlyCreated := false }
  , masterCategory := some { id := 1, slug := "master" }
  , masterComponents := []
  , pullMergeFailure := none
  , componentsInCode := [compA]
  , componentSlug := fun n => n
  , categoryComponents := [wcomp "common__7", wcomp "stale__7"]
  , repositoryErrors := noErrors
  , untranslatedError := none }

/-! ## Helper lemmas about trace predicates -/

theorem all_contains_self (l : List String) : (l.all fun n => l.contains n) = true := by
  simp [List.all_eq_true]

/-- Events that are neither a task barrier nor a removal step. -/
def barrierNeutral (e : Event) : Bool :=
  match e with
  | Event.waitComponentsTasks _ _ => false
  | Event.removeMissingComponents _ => false
  | _ => true

theorem removalCoveredAux_append_neutral (fullNames : List String)
    (t0 : List Event) (h : t0.all barrierNeutral = true) (rest : List Event)
    (seen : Bool) :
    removalCoveredAux fullNames (t0 ++ rest) seen =
      removalCoveredAux fullNames rest seen := by
  induction t0 with
  | nil => rfl
  | cons e es ih =>
    simp only [List.all_cons, Bool.and_eq_true] at h
    cases e <;> simp_all [removalCoveredAux, barrierNeutral]

theorem removalCoveredAux_of_neutral (fullNames : List String) (t : List Event)
    (h : t.all barrierNeutral = true) (seen : Bool) :
    removalCoveredAux fullNames t seen = true := by
  have := removalCoveredAux_append_neutral fullNames t h [] seen
  simpa using this

theorem creates_barrierNeutral {α : Type} (f : α → CreateComponentArgs)
    (l : List α) :
    ((l.map fun a => Event.createComponent (f a)).all barrierNeutral) = true := by
  simp [List.all_eq_true, barrierNeutral]

theorem removalCovered_syncMasterBody (config : Configuration)
    (env : SyncMasterEnv) (f : ComponentInCode) (o : List ComponentInCode)
    (rest : List Event) (seen : Bool) :
    removalCoveredAux (env.categoryComponents.map fun c => c.name)
        (syncMasterBody config env f o ++ rest) seen =
      removalCoveredAux (env.categoryComponents.map fun c => c.name) rest true := by
  unfold syncMasterBody
  simp only [List.cons_append, List.append_assoc, List.nil_append]
  simp only [removalCoveredAux]
  rw [removalCoveredAux_append_neutral _ _ (by simpa using creates_barrierNeutral _ _)]
  simp only [removalCoveredAux, all_contains_self, Bool.or_true, Bool.true_and]

theorem removalCovered_syncMasterTail (fullNames : List String)
    (re : RepositoryErrors) :
    removalCoveredAux fullNames (syncMasterTail re) true = true := by
  unfold syncMasterTail
  cases re.mergeFailureError with
  | some m => simp [removalCoveredAux]
  | none =>
    cases re.needsCommitError.isSome <;> cases re.needsPushError.isSome <;>
      simp [removalCoveredAux]

theorem removalCovered_syncMasterRest (config : Configuration)
    (env : SyncMasterEnv) (t0 t : List Event)
    (h0 : t0.all barrierNeutral = true)
    (h : syncMasterRest config env t0 = .ok t) :
    removalCovered (env.categoryComponents.map fun c => c.name) t = true := by
  unfold syncMasterRest at h
  cases hcomp : env.componentsInCode with
  | nil => rw [hcomp] at h; exact absurd h (by simp)
  | cons f o =>
    rw [hcomp] at h
    simp only [Except.ok.injEq] at h
    subst h
    unfold removalCovered
    rw [List.append_assoc, removalCoveredAux_append_neutral _ _ h0,
      removalCovered_syncMasterBody]
    exact removalCovered_syncMasterTail _ _

/-- C1 (claim as stated) is false: in `validate-pull-request` mode with a
pre-existing category, the run removes missing components after a task
barrier that covers only the component created by this run
(`common__7`), not the stale pre-existing component `stale__7` that is
still in the category. -/
theorem waitBarrier_full_coverage_counterexample :
    removalCovered (envPrStale.categoryComponents.map fun c => c.name)
        (traceOf (validatePullRequest cfgEx envPrStale)) = false ∧
      ((traceOf (validatePullRequest cfgEx envPrStale)).any fun e =>
        match e with
        | Event.removeMissingComponents _ => true
        | _ => false) = true := by
  exact ⟨rfl, rfl⟩

/-- C1 amended: in `sync-trunk` mode the claim holds — whenever
`syncMaster` completes without a crash, every `removeMissingComponents`
step in its trace happens only after a `waitComponentsTasks` barrier that
names every component currently in the category (the full
`getComponentsInCategory` result, pre-existing and newly created). -/
theorem syncMaster_removal_after_full_barrier (config : Configuration)
    (env : SyncMasterEnv) (t : List Event)
    (h : syncMaster config env = .ok t) :
    removalCovered (env.categoryComponents.map fun c => c.name) t = true := by
  simp only [syncMaster] at h
  by_cases hw : env.category.wasRecentlyCreated = true
  · rw [if_pos hw] at h
    exact removalCovered_syncMasterRest _ _ _ _ (by simp [barrierNeutral]) h
  · rw [if_neg hw] at h
    cases hpull : env.pullMergeFailure with
    | some m =>
      rw [hpull] at h
      simp only [Except.ok.injEq] at h
      subst h
      simp [removalCovered, removalCoveredAux]
    | none =>
      rw [hpull] at h
      exact removalCovered_syncMasterRest _ _ _ _ (by simp [barrierNeutral]) h

/-- Environment for a clean trunk sync. -/
def envSyncOk : SyncMasterEnv :=
  { category := { id := 2, slug := "master", wasRecentlyCreated := false }
  , pullMergeFailure := none
  , componentsInCode := [compA, compB]
  , componentSlug := fun n => n
  , mainComponentInCategory := none
  , categoryComponents := [wcomp "common", wcomp "billing"]
  , repositoryErrors := noErrors }

/-- The trace of the clean trunk sync. -/
def syncOkTrace : List Event := traceOf (syncMaster cfgEx envSyncOk)

/-- Witness for the amended C1 theorem at a concrete clean trunk-sync
run. -/
theorem waitBarrier_full_coverage_witness :
    syncMaster cfgEx envSyncOk = .ok syncOkTrace ∧
      removalCovered (envSyncOk.categoryComponents.map fun c => c.name)
        syncOkTrace = true :=
  ⟨rfl, syncMaster_removal_after_full_barrier cfgEx envSyncOk syncOkTrace rfl⟩

/-! ## Shape lemmas for successful handler runs -/

theorem outputActionFree_append (a b : List Event) :
    outputActionFree (a ++ b) = (outputActionFree a && outputActionFree b) := by
  simp [outputActionFree]

theorem hasSetFailed_append (a b : List Event) :
    hasSetFailed (a ++ b) = (hasSetFailed a || hasSetFailed b) := by
  simp [hasSetFailed]

theorem hasSetFailed_of_free (t : List Event) (h : outputActionFree t = true) :
    hasSetFailed t = false := by
  induction t with
  | nil => rfl
  | cons e es ih => cases e <;> simp_all [outputActionFree, hasSetFailed]

theorem hasWarn_of_free (t : List Event) (h : outputActionFree t = true) :
    hasWarn t = false := by
  induction t with
  | nil => rfl
  | cons e es ih => cases e <;> simp_all [outputActionFree, hasWarn]

theorem creates_outputActionFree {α : Type} (f : α → CreateComponentArgs)
    (l : List α) :
    outputActionFree (l.map fun a => Event.createComponent (f a)) = true := by
  simp [outputActionFree, List.all_eq_true]

theorem syncMasterBody_outputActionFree (config : Configuration)
    (env : SyncMasterEnv) (f : ComponentInCode) (o : List ComponentInCode) :
    outputActionFree (syncMasterBody config env f o) = true := by
  unfold syncMasterBody
  simp [outputActionFree, List.all_eq_true]

theorem validatePrBody_outputActionFree (config : Configuration)
    (env : ValidatePrEnv) (f : ComponentInCode) (o : List ComponentInCode) :
    outputActionFree (validatePrBody config env f o) = true := by
  unfold validatePrBody
  by_cases hw : env.category.wasRecentlyCreated = true <;>
    simp [outputActionFree, List.all_eq_true, hw]

/-- Any successful `syncMaster` run that reaches resolution decomposes as
a neutral prefix, the body and the health tail. -/
theorem syncMaster_ok_shape (config : Configuration) (env : SyncMasterEnv)
    (t : List Event)
    (hok : syncMaster config env = .ok t)
    (hreach : env.category.wasRecentlyCreated = false →
      env.pullMergeFailure = none) :
    ∃ (pre : List Event) (f : ComponentInCode) (o : List ComponentInCode),
      env.componentsInCode = f :: o ∧
      t = pre ++ syncMasterBody config env f o ++
        syncMasterTail env.repositoryErrors ∧
      outputActionFree pre = true := by
  simp only [syncMaster] at hok
  by_cases hw : env.category.wasRecentlyCreated = true
  · rw [if_pos hw] at hok
    unfold syncMasterRest at hok
    cases hcomp : env.componentsInCode with
    | nil => rw [hcomp] at hok; exact absurd hok (by simp)
    | cons f o =>
      rw [hcomp] at hok
      simp only [Except.ok.injEq] at hok
      exact ⟨_, f, o, rfl, hok.symm, rfl⟩
  · rw [if_neg hw] at hok
    rw [hreach (by simpa using hw)] at hok
    unfold syncMasterRest at hok
    cases hcomp : env.componentsInCode with
    | nil => rw [hcomp] at hok; exact absurd hok (by simp)
    | cons f o =>
      rw [hcomp] at hok
      simp only [Except.ok.injEq] at hok
      exact ⟨_, f, o, rfl, hok.symm, rfl⟩

/-- Any successful `validatePullRequest` run that reaches resolution
decomposes as a prefix (bootstrap or pull), the body and the health
tail; the prefix performs no outcome action and passes `updateIfExist`
nowhere. -/
theorem validatePullRequest_ok_shape (config : Configuration)
    (env : ValidatePrEnv) (t : List Event)
    (hok : validatePullRequest config env = .ok t)
    (hreach1 : env.category.wasRecentlyCreated = true →
      env.masterCategory.isSome = true)
    (hreach2 : env.category.wasRecentlyCreated = false →
      env.pullMergeFailure = none) :
    ∃ (pre : List Event) (f : ComponentInCode) (o : List ComponentInCode),
      env.componentsInCode = f :: o ∧
      t = pre ++ validatePrBody config env f o ++
        validatePrTail env.repositoryErrors env.untranslatedError ∧
      outputActionFree pre = true ∧
      updateFlagsAre env.category.wasRecentlyCreated pre = true := by
  simp only [validatePullRequest] at hok
  by_cases hw : env.category.wasRecentlyCreated = true
  · rw [if_pos hw] at hok
    cases hmc : env.masterCategory with
    | none => rw [hmc] at hreach1; simp [hw] at hreach1
    | some mc =>
      rw [hmc] at hok
      unfold validatePrRest at hok
      cases hcomp : env.componentsInCode with
      | nil => rw [hcomp] at hok; exact absurd hok (by simp)
      | cons f o =>
        rw [hcomp] at hok
        simp only [Except.ok.injEq] at hok
        refine ⟨_, f, o, rfl, hok.symm, ?_, ?_⟩
        · simp [outputActionFree, List.all_eq_true]
        · simp [updateFlagsAre, List.all_eq_true]
  · rw [if_neg hw] at hok
    rw [hreach2 (by simpa using hw)] at hok
    unfold validatePrRest at hok
    cases hcomp : env.componentsInCode with
    | nil => rw [hcomp] at hok; exact absurd hok (by simp)
    | cons f o =>
      rw [hcomp] at hok
      simp only [Except.ok.injEq] at hok
      refine ⟨_, f, o, rfl, hok.symm, rfl, rfl⟩

/-- Health result with only uncommitted platform-side changes. -/
def commitOnlyErrors : RepositoryErrors :=
  { mergeFailureError := none, needsCommitError := some "uncommitted"
  , needsPushError := none }

/-- PR environment whose health check reports only uncommitted
changes. -/
def envPrCommit : ValidatePrEnv :=
  { category := { id := 10, slug := "feature__7", wasRecentlyCreated := false }
  , masterCategory := some { id := 1, slug := "master" }
  , masterComponents := []
  , pullMergeFailure := none
  , componentsInCode := [compA]
  , componentSlug := fun n => n
  , categoryComponents := [wcomp "common__7"]
  , repositoryErrors := commitOnlyErrors
  , untranslatedError := none }

/-- Trunk-sync environment whose health check reports only uncommitted
changes. -/
def envSyncCommit : SyncMasterEnv :=
  { envSyncOk with repositoryErrors := commitOnlyErrors }

/-- C2 (claim as stated) is false: in `validate-pull-request` mode a
`needsCommitError` with no `mergeFailureError` marks the run failed and
logs no warning. -/
theorem needsCommit_nonfatal_counterexample :
    envPrCommit.repositoryErrors.needsCommitError.isSome = true ∧
      envPrCommit.repositoryErrors.mergeFailureError = none ∧
      hasSetFailed (traceOf (validatePullRequest cfgEx envPrCommit)) = true ∧
      hasWarn (traceOf (validatePullRequest cfgEx envPrCommit)) = false :=
  ⟨rfl, rfl, rfl, rfl⟩

/-- C2 amended: on `needsCommitError` without `mergeFailureError`, the
`sync-trunk` handler logs the warning and does not fail (here with no
`needsPushError` either, so no failure at all), while the
`validate-pull-request` handler posts the message as a PR comment and
marks the run failed. -/
theorem needsCommit_warns_trunk_fails_pr (config : Configuration)
    (envS : SyncMasterEnv) (envP : ValidatePrEnv) (mS mP : String)
    (tS tP : List Event)
    (hokS : syncMaster config envS = .ok tS)
    (hreachS : envS.category.wasRecentlyCreated = false →
      envS.pullMergeFailure = none)
    (hmfS : envS.repositoryErrors.mergeFailureError = none)
    (hncS : envS.repositoryErrors.needsCommitError = some mS)
    (hnpS : envS.repositoryErrors.needsPushError = none)
    (hokP : validatePullRequest config envP = .ok tP)
    (hreachP1 : envP.category.wasRecentlyCreated = true →
      envP.masterCategory.isSome = true)
    (hreachP2 : envP.category.wasRecentlyCreated = false →
      envP.pullMergeFailure = none)
    (hmfP : envP.repositoryErrors.mergeFailureError = none)
    (hncP : envP.repositoryErrors.needsCommitError = some mP) :
    (Event.warn syncMasterNeedsCommitWarning ∈ tS ∧ hasSetFailed tS = false) ∧
      (Event.comment mP ∈ tP ∧ Event.setFailed mP ∈ tP) := by
  obtain ⟨pre, f, o, hcomp, ht, hfree⟩ :=
    syncMaster_ok_shape config envS tS hokS hreachS
  obtain ⟨preP, fP, oP, hcompP, htP, hfreeP, hupP⟩ :=
    validatePullRequest_ok_shape config envP tP hokP hreachP1 hreachP2
  have htail : syncMasterTail envS.repositoryErrors =
      [Event.warn syncMasterNeedsCommitWarning] := by
    unfold syncMasterTail
    rw [hmfS]
    simp [hncS, hnpS]
  have htailP : validatePrTail envP.repositoryErrors envP.untranslatedError =
      [Event.comment mP, Event.setFailed mP] := by
    unfold validatePrTail
    rw [hmfP, hncP]
  subst ht htP
  refine ⟨⟨?_, ?_⟩, ?_, ?_⟩
  · rw [htail]; simp
  · rw [htail, hasSetFailed_append, hasSetFailed_append,
      hasSetFailed_of_free _ hfree,
      hasSetFailed_of_free _ (syncMasterBody_outputActionFree config envS f o)]
    simp [hasSetFailed]
  · rw [htailP]; simp
  · rw [htailP]; simp

/-- Witness for the amended C2 theorem at concrete runs. -/
theorem needsCommit_warns_trunk_fails_pr_witness :
    (Event.warn syncMasterNeedsCommitWarning ∈
        traceOf (syncMaster cfgEx envSyncCommit) ∧
      hasSetFailed (traceOf (syncMaster cfgEx envSyncCommit)) = false) ∧
      (Event.comment "uncommitted" ∈
        traceOf (validatePullRequest cfgEx envPrCommit) ∧
      Event.setFailed "uncommitted" ∈
        traceOf (validatePullRequest cfgEx envPrCommit)) :=
  needsCommit_warns_trunk_fails_pr cfgEx envSyncCommit envPrCommit
    "uncommitted" "uncommitted" _ _ rfl (fun _ => rfl) rfl rfl rfl rfl
    (fun _ => rfl) (fun _ => rfl) rfl rfl

/-- PR environment for a newly created category whose trunk category is
missing. -/
def envPrNoMaster : ValidatePrEnv :=
  { category := { id := 10, slug := "feature__7", wasRecentlyCreated := true }
  , masterCategory := none
  , masterComponents := []
  , pullMergeFailure := none
  , componentsInCode := [compA]
  , componentSlug := fun n => n
  , categoryComponents := []
  , repositoryErrors := noErrors
  , untranslatedError := none }

/-- C3 (claim as stated) is false: the missing-trunk-category fatal
condition of the PR flow marks the run failed without posting any PR
comment. -/
theorem prFatal_commented_counterexample :
    hasSetFailed (traceOf (validatePullRequest cfgEx envPrNoMaster)) = true ∧
      hasComment (traceOf (validatePullRequest cfgEx envPrNoMaster)) = false :=
  ⟨rfl, rfl⟩

theorem failsCommentedAux_append_free (t0 : List Event)
    (h : outputActionFree t0 = true) (rest : List Event) (seen : List String) :
    failsCommentedAux (t0 ++ rest) seen = failsCommentedAux rest seen := by
  induction t0 generalizing seen with
  | nil => rfl
  | cons e es ih =>
    simp only [outputActionFree, List.all_cons, Bool.and_eq_true] at h
    cases e <;> simp_all [failsCommentedAux, outputActionFree]

theorem failsCommentedAux_validatePrTail (re : RepositoryErrors)
    (u : Option String) (seen : List String) :
    failsCommentedAux (validatePrTail re u) seen = true := by
  unfold validatePrTail
  cases re.mergeFailureError <;> cases re.needsCommitError <;>
    cases re.needsPushError <;> cases u <;>
    simp [failsCommentedAux, List.contains_cons]

theorem createEvents_outputActionFree (args : List CreateComponentArgs) :
    outputActionFree (args.map Event.createComponent) = true := by
  simp [outputActionFree, List.all_eq_true]

/-- C3 amended: every fatal condition of the PR flow other than the
missing-trunk-category failure posts a PR comment with the same body
before marking the run failed; the run with the missing trunk category
(excluded here by the hypothesis) fails without a comment. -/
theorem validatePr_fatal_commented (config : Configuration)
    (env : ValidatePrEnv) (t : List Event)
    (hok : validatePullRequest config env = .ok t)
    (hboot : env.category.wasRecentlyCreated = true →
      env.masterCategory.isSome = true) :
    failsCommented t = true := by
  by_cases hw : env.category.wasRecentlyCreated = true
  · obtain ⟨pre, f, o, hcomp, ht, hfree, hup⟩ :=
      validatePullRequest_ok_shape config env t hok hboot
        (fun h => absurd hw (by simp [h]))
    subst ht
    unfold failsCommented
    rw [List.append_assoc]
    rw [failsCommentedAux_append_free _ hfree]
    rw [failsCommentedAux_append_free _
      (validatePrBody_outputActionFree config env f o)]
    exact failsCommentedAux_validatePrTail _ _ _
  · simp only [validatePullRequest] at hok
    rw [if_neg hw] at hok
    cases hpull : env.pullMergeFailure with
    | some m =>
      rw [hpull] at hok
      simp only [Except.ok.injEq] at hok
      subst hok
      simp [failsCommented, failsCommentedAux, List.contains_cons]
    | none =>
      rw [hpull] at hok
      unfold validatePrRest at hok
      cases hcomp : env.componentsInCode with
      | nil => rw [hcomp] at hok; exact absurd hok (by simp)
      | cons f o =>
        rw [hcomp] at hok
        simp only [Except.ok.injEq] at hok
        subst hok
        unfold failsCommented
        rw [List.append_assoc]
        rw [failsCommentedAux_append_free _ (by simp [outputActionFree])]
        rw [failsCommentedAux_append_free _
          (validatePrBody_outputActionFree config env f o)]
        exact failsCommentedAux_validatePrTail _ _ _

/-- The trace of the concrete PR run that fails on uncommitted
changes. -/
def prCommitTrace : List Event := traceOf (validatePullRequest cfgEx envPrCommit)

/-- Witness for the amended C3 theorem at a concrete PR run whose fatal
condition is commented. -/
theorem validatePr_fatal_commented_witness :
    validatePullRequest cfgEx envPrCommit = .ok prCommitTrace ∧
      failsCommented prCommitTrace = true :=
  ⟨rfl, validatePr_fatal_commented cfgEx envPrCommit prCommitTrace rfl
    (fun _ => rfl)⟩

/-- PR environment resuming an already-provisioned branch category. -/
def envPrPreexisting : ValidatePrEnv :=
  { category := { id := 10, slug := "feature__7", wasRecentlyCreated := false }
  , masterCategory := some { id := 1, slug := "master" }
  , masterComponents := []
  , pullMergeFailure := none
  , componentsInCode := [compA, compB]
  , componentSlug := fun n => n
  , categoryComponents := [wcomp "common__7", wcomp "billing__7"]
  , repositoryErrors := noErrors
  , untranslatedError := none }

/-- C4 (claim as stated) is false: when the category already existed
(`wasRecentlyCreated = false`), the reconciliation creation calls do not
pass the update-if-exists flag as true — the run contains a
`createComponent` call with `updateIfExist = some false`. -/
theorem updateIfExist_flag_counterexample :
    envPrPreexisting.category.wasRecentlyCreated = false ∧
      updateFlagsAre true
        (traceOf (validatePullRequest cfgEx envPrPreexisting)) = false :=
  ⟨rfl, rfl⟩

theorem updateFlagsAre_append (b : Bool) (a c : List Event) :
    updateFlagsAre b (a ++ c) = (updateFlagsAre b a && updateFlagsAre b c) := by
  simp [updateFlagsAre]

theorem validatePrBody_updateFlags (config : Configuration)
    (env : ValidatePrEnv) (f : ComponentInCode) (o : List ComponentInCode) :
    updateFlagsAre env.category.wasRecentlyCreated
      (validatePrBody config env f o) = true := by
  unfold validatePrBody
  by_cases hw : env.category.wasRecentlyCreated = true <;>
    simp [updateFlagsAre, List.all_eq_true, prFirstArgs, prOtherArgs, hw]

theorem validatePrTail_updateFlags (b : Bool) (re : RepositoryErrors)
    (u : Option String) :
    updateFlagsAre b (validatePrTail re u) = true := by
  unfold validatePrTail
  cases re.mergeFailureError <;> cases re.needsCommitError <;>
    cases re.needsPushError <;> cases u <;> simp [updateFlagsAre]

/-- C4 amended: every `createComponent` call of a successful
`validatePullRequest` run either omits `updateIfExist` (the bootstrap
clones) or passes it equal to `wasRecentlyCreated` — the flag is set
exactly when the category was created by this run, not when it already
existed. -/
theorem updateIfExist_equals_wasRecentlyCreated (config : Configuration)
    (env : ValidatePrEnv) (t : List Event)
    (hok : validatePullRequest config env = .ok t)
    (hreach1 : env.category.wasRecentlyCreated = true →
      env.masterCategory.isSome = true)
    (hreach2 : env.category.wasRecentlyCreated = false →
      env.pullMergeFailure = none) :
    updateFlagsAre env.category.wasRecentlyCreated t = true := by
  obtain ⟨pre, f, o, hcomp, ht, hfree, hup⟩ :=
    validatePullRequest_ok_shape config env t hok hreach1 hreach2
  subst ht
  rw [updateFlagsAre_append, updateFlagsAre_append, hup,
    validatePrBody_updateFlags, validatePrTail_updateFlags]
  rfl

/-- The trace of the concrete resumed-branch PR run. -/
def prPreexistingTrace : List Event :=
  traceOf (validatePullRequest cfgEx envPrPreexisting)

/-- Witness for the amended C4 theorem at a concrete resumed-branch
run. -/
theorem updateIfExist_equals_wasRecentlyCreated_witness :
    validatePullRequest cfgEx envPrPreexisting = .ok prPreexistingTrace ∧
      updateFlagsAre envPrPreexisting.category.wasRecentlyCreated
        prPreexistingTrace = true :=
  ⟨rfl, updateIfExist_equals_wasRecentlyCreated cfgEx envPrPreexisting
    prPreexistingTrace rfl (fun _ => rfl) (fun _ => rfl)⟩

/-- Health result with a merge failure and both other conditions also
present. -/
def mergeAllErrors : RepositoryErrors :=
  { mergeFailureError := some "merge conflict"
  , needsCommitError := some "uncommitted", needsPushError := some "unpushed" }

/-- Trunk-sync environment whose health check reports a merge failure. -/
def envSyncMerge : SyncMasterEnv :=
  { envSyncOk with repositoryErrors := mergeAllErrors }

/-- PR environment whose health check reports a merge failure. -/
def envPrMerge : ValidatePrEnv :=
  { envPrCommit with repositoryErrors := mergeAllErrors }

/-- C5: when the health check reports a `mergeFailureError`, both
handlers stop at once: the run's only outcome actions are the final
failure with the merge message (preceded in PR mode by the PR comment of
that same message); in particular no warning, comment or failure for
`needsCommitError` or `needsPushError` occurs in that invocation. -/
theorem mergeFailure_short_circuits (config : Configuration)
    (envS : SyncMasterEnv) (envP : ValidatePrEnv) (mS mP : String)
    (tS tP : List Event)
    (hokS : syncMaster config envS = .ok tS)
    (hreachS : envS.category.wasRecentlyCreated = false →
      envS.pullMergeFailure = none)
    (hmS : envS.repositoryErrors.mergeFailureError = some mS)
    (hokP : validatePullRequest config envP = .ok tP)
    (hreachP1 : envP.category.wasRecentlyCreated = true →
      envP.masterCategory.isSome = true)
    (hreachP2 : envP.category.wasRecentlyCreated = false →
      envP.pullMergeFailure = none)
    (hmP : envP.repositoryErrors.mergeFailureError = some mP) :
    (∃ pre, tS = pre ++ [Event.setFailed mS] ∧ outputActionFree pre = true) ∧
      (∃ pre, tP = pre ++ [Event.comment mP, Event.setFailed mP] ∧
        outputActionFree pre = true) := by
  obtain ⟨pre, f, o, hcomp, ht, hfree⟩ :=
    syncMaster_ok_shape config envS tS hokS hreachS
  obtain ⟨preP, fP, oP, hcompP, htP, hfreeP, hupP⟩ :=
    validatePullRequest_ok_shape config envP tP hokP hreachP1 hreachP2
  have htail : syncMasterTail envS.repositoryErrors = [Event.setFailed mS] := by
    unfold syncMasterTail; rw [hmS]
  have htailP : validatePrTail envP.repositoryErrors envP.untranslatedError =
      [Event.comment mP, Event.setFailed mP] := by
    unfold validatePrTail; rw [hmP]
  subst ht htP
  constructor
  · refine ⟨pre ++ syncMasterBody config envS f o, ?_, ?_⟩
    · rw [htail, List.append_assoc]
    · rw [outputActionFree_append, hfree,
        syncMasterBody_outputActionFree config envS f o]
      rfl
  · refine ⟨preP ++ validatePrBody config envP fP oP, ?_, ?_⟩
    · rw [htailP, List.append_assoc]
    · rw [outputActionFree_append, hfreeP,
        validatePrBody_outputActionFree config envP fP oP]
      rfl

/-- Witness for C5 at concrete merge-failure runs in both modes. -/
theorem mergeFailure_short_circuits_witness :
    (∃ pre, traceOf (syncMaster cfgEx envSyncMerge) =
        pre ++ [Event.setFailed "merge conflict"] ∧
      outputActionFree pre = true) ∧
      (∃ pre, traceOf (validatePullRequest cfgEx envPrMerge) =
          pre ++ [Event.comment "merge conflict",
            Event.setFailed "merge conflict"] ∧
        outputActionFree pre = true) :=
  mergeFailure_short_circuits cfgEx envSyncMerge envPrMerge
    "merge conflict" "merge conflict" _ _ rfl (fun _ => rfl) rfl rfl
    (fun _ => rfl) (fun _ => rfl) rfl

theorem find?_filter_ne_id_eq_none (l : List PlatformCategory) (b : String)
    (c : PlatformCategory)
    (hnd : (l.map fun x => x.branchName).Nodup)
    (hf : l.find? (fun x => x.branchName == b) = some c) :
    (l.filter fun x => x.id != c.id).find? (fun x => x.branchName == b) =
      none := by
  have hcb : c.branchName = b := by
    have := List.find?_some hf
    simpa using this
  have hcmem : c ∈ l := List.mem_of_find?_eq_some hf
  rw [List.find?_eq_none]
  intro x hx hxb
  have hxl : x ∈ l := (List.mem_filter.mp hx).1
  have hxid : (x.id != c.id) = true := (List.mem_filter.mp hx).2
  have hxb2 : x.branchName = b := by simpa using hxb
  have hxc : x = c :=
    List.inj_on_of_nodup_map hnd hxl hcmem (by rw [hxb2, hcb])
  subst hxc
  simp at hxid

/-- C9: `removeBranch` is a no-op when no category named
`<branch>__<prNumber>` exists, otherwise calls `removeCategory` exactly
once with that category's id; and it is idempotent — the second of two
consecutive runs leaves the platform state unchanged and issues no
`removeCategory` call.  Branch names are unique per the platform
invariant (at most one category per branch name). -/
theorem removeBranch_spec (config : Configuration) (st : PlatformState)
    (hnd : (st.categories.map fun c => c.branchName).Nodup) :
    (st.categories.find? (fun c =>
        c.branchName == prName config config.branchName) = none →
      removeBranch config st =
        (st, [Event.findCategory (prName config config.branchName)])) ∧
      (∀ c, st.categories.find? (fun c =>
          c.branchName == prName config config.branchName) = some c →
        ((removeBranch config st).2.filter isRemoveCategory) =
          [Event.removeCategory c.id]) ∧
      ((removeBranch config (removeBranch config st).1).1 =
        (removeBranch config st).1 ∧
        ((removeBranch config (removeBranch config st).1).2.filter
          isRemoveCategory) = []) := by
  cases hf : st.categories.find? (fun c =>
      c.branchName == prName config config.branchName) with
  | none =>
    have h1 : removeBranch config st =
        (st, [Event.findCategory (prName config config.branchName)]) := by
      simp only [removeBranch]
      rw [hf]
    refine ⟨fun _ => h1, ?_, ?_, ?_⟩
    · intro c hc
      exact absurd hc (by simp)
    · rw [h1, h1]
    · rw [h1, h1]
      simp [isRemoveCategory]
  | some c =>
    have h1 : removeBranch config st =
        ({ categories := st.categories.filter fun x => x.id != c.id },
          [Event.findCategory (prName config config.branchName),
            Event.removeCategory c.id]) := by
      simp only [removeBranch]
      rw [hf]
    have hnone := find?_filter_ne_id_eq_none st.categories
      (prName config config.branchName) c hnd hf
    have h2 : removeBranch config
        ({ categories := st.categories.filter fun x => x.id != c.id } :
          PlatformState) =
        ({ categories := st.categories.filter fun x => x.id != c.id },
          [Event.findCategory (prName config config.branchName)]) := by
      simp only [removeBranch]
      rw [hnone]
    refine ⟨?_, ?_, ?_, ?_⟩
    · intro hno
      exact absurd hno (by simp)
    · intro c' hc'
      injection hc' with h
      subst h
      rw [h1]
      simp [isRemoveCategory]
    · rw [h1, h2]
    · rw [h1, h2]
      simp [isRemoveCategory]

/-- Concrete platform state holding the PR category and one other. -/
def stEx : PlatformState :=
  { categories := [{ branchName := "feature__7", id := 10 },
    { branchName := "other__3", id := 11 }] }

/-- Witness for C9 at a concrete platform state. -/
theorem removeBranch_spec_witness :
    (stEx.categories.find? (fun c =>
        c.branchName == prName cfgEx cfgEx.branchName) = none →
      removeBranch cfgEx stEx =
        (stEx, [Event.findCategory (prName cfgEx cfgEx.branchName)])) ∧
      (∀ c, stEx.categories.find? (fun c =>
          c.branchName == prName cfgEx cfgEx.branchName) = some c →
        ((removeBranch cfgEx stEx).2.filter isRemoveCategory) =
          [Event.removeCategory c.id]) ∧
      ((removeBranch cfgEx (removeBranch cfgEx stEx).1).1 =
        (removeBranch cfgEx stEx).1 ∧
        ((removeBranch cfgEx (removeBranch cfgEx stEx).1).2.filter
          isRemoveCategory) = []) :=
  removeBranch_spec cfgEx stEx (by decide)

/-- Trunk-sync environment where discovery finds no components. -/
def envSyncEmpty : SyncMasterEnv :=
  { envSyncOk with componentsInCode := [] }

/-- PR environment where discovery finds no components. -/
def envPrEmpty : ValidatePrEnv :=
  { envPrCommit with componentsInCode := [] }

/-- C10: when `resolveComponents` returns an empty list, both the
sync-trunk and the validate-pull-request handler crash dereferencing the
undefined first component instead of completing or reporting a
classified failure. -/
theorem empty_components_crash (config : Configuration)
    (envS : SyncMasterEnv) (envP : ValidatePrEnv)
    (hS0 : envS.componentsInCode = [])
    (hSreach : envS.category.wasRecentlyCreated = false →
      envS.pullMergeFailure = none)
    (hP0 : envP.componentsInCode = [])
    (hPreach1 : envP.category.wasRecentlyCreated = true →
      envP.masterCategory.isSome = true)
    (hPreach2 : envP.category.wasRecentlyCreated = false →
      envP.pullMergeFailure = none) :
    syncMaster config envS = .error undefinedComponentError ∧
      validatePullRequest config envP = .error undefinedComponentError := by
  constructor
  · simp only [syncMaster]
    by_cases hw : envS.category.wasRecentlyCreated = true
    · rw [if_pos hw]
      simp [syncMasterRest, hS0]
    · rw [if_neg hw, hSreach (by simpa using hw)]
      simp [syncMasterRest, hS0]
  · simp only [validatePullRequest]
    by_cases hw : envP.category.wasRecentlyCreated = true
    · rw [if_pos hw]
      cases hmc : envP.masterCategory with
      | none => rw [hmc] at hPreach1; simp [hw] at hPreach1
      | some mc => simp [validatePrRest, hP0]
    · rw [if_neg hw, hPreach2 (by simpa using hw)]
      simp [validatePrRest, hP0]

/-- Witness for C10 at concrete empty-discovery runs. -/
theorem empty_components_crash_witness :
    envSyncEmpty.componentsInCode = [] ∧
      envPrEmpty.componentsInCode = [] ∧
      syncMaster cfgEx envSyncEmpty = .error undefinedComponentError ∧
      validatePullRequest cfgEx envPrEmpty = .error undefinedComponentError :=
  ⟨rfl, rfl,
    (empty_components_crash cfgEx envSyncEmpty envPrEmpty rfl (fun _ => rfl)
      rfl (fun _ => rfl) (fun _ => rfl)).1,
    (empty_components_crash cfgEx envSyncEmpty envPrEmpty rfl (fun _ => rfl)
      rfl (fun _ => rfl) (fun _ => rfl)).2⟩

/-! ## Discovery: glob partial failure (C8) -/

theorem resolveComponentsGlob_foldl (mainLanguage : String)
    (dirs : List MatchedDir) (acc : List ComponentInCode × List String) :
    dirs.foldl
      (fun acc md =>
        match md.contents with
        | .ok dirents =>
          (acc.1 ++ globDirComponents mainLanguage md.dir dirents, acc.2)
        | .error e => (acc.1, acc.2 ++ [readFailureWarning md.dir e]))
      acc =
    (acc.1 ++ dirs.flatMap fun md =>
      match md.contents with
      | .ok ds => globDirComponents mainLanguage md.dir ds
      | .error _ => [],
     acc.2 ++ dirs.filterMap fun md =>
      match md.contents with
      | .ok _ => none
      | .error e => some (readFailureWarning md.dir e)) := by
  induction dirs generalizing acc with
  | nil => simp
  | cons md rest ih =>
    cases hmd : md.contents with
    | ok ds => simp [hmd, ih, List.filterMap_cons, List.append_assoc]
    | error e => simp [hmd, ih, List.filterMap_cons, List.append_assoc]

/-- C8: for a glob-pattern path, `resolveComponents` always succeeds; its
components are exactly the groups of the readable matched directories (in
match order) and it records one read-failure warning per unreadable
directory. -/
theorem glob_partial_failure_isolated (fsys : FileSystem)
    (keysetsPath mainLanguage : String)
    (hglob : isGlobPattern keysetsPath = true) :
    resolveComponents fsys keysetsPath mainLanguage =
      .ok (fsys.globMatches.flatMap fun md =>
        match md.contents with
        | .ok ds => globDirComponents mainLanguage md.dir ds
        | .error _ => [],
       fsys.globMatches.filterMap fun md =>
        match md.contents with
        | .ok _ => none
        | .error e => some (readFailureWarning md.dir e)) := by
  unfold resolveComponents
  rw [if_pos hglob]
  unfold resolveComponentsGlob
  rw [resolveComponentsGlob_foldl]
  simp

/-- Concrete filesystem: one readable glob match and one unreadable
one. -/
def fsysEx : FileSystem :=
  { globMatches :=
      [ { dir := "projects/project-a/src/i18n-keysets"
        , contents := .ok [{ name := "component1", isDir := true }] }
      , { dir := "projects/project-b/src/i18n-keysets"
        , contents := .error "EACCES" } ]
  , directDirents := .ok [] }

/-- Witness for C8: the mixed success/failure glob scan at a concrete
filesystem. -/
theorem glob_partial_failure_isolated_witness :
    isGlobPattern "projects/*/src/i18n-keysets" = true ∧
      resolveComponents fsysEx "projects/*/src/i18n-keysets" "en" =
        .ok (fsysEx.globMatches.flatMap fun md =>
          match md.contents with
          | .ok ds => globDirComponents "en" md.dir ds
          | .error _ => [],
         fsysEx.globMatches.filterMap fun md =>
          match md.contents with
          | .ok _ => none
          | .error e => some (readFailureWarning md.dir e)) :=
  ⟨rfl, glob_partial_failure_isolated fsysEx "projects/*/src/i18n-keysets"
    "en" rfl⟩

/-! ## Discovery: path lemmas for the naming claims (C6, C7) -/

/-- A path segment that survives Node path normalization verbatim:
non-empty, not a dot segment, containing no separator. -/
def cleanSeg (s : String) : Bool :=
  !(s == "") && !(s == ".") && !(s == "..") && !(containsChar s '/')

theorem string_mk_data (s : String) : String.mk s.data = s := by
  cases s
  rfl

theorem splitCharsOnSlash_ne_nil (l : List Char) : splitCharsOnSlash l ≠ [] := by
  cases l with
  | nil => simp [splitCharsOnSlash]
  | cons c cs =>
    by_cases hc : c = '/' <;> simp [splitCharsOnSlash, hc]

theorem splitCharsOnSlash_no_slash (l : List Char) (h : l.contains '/' = false) :
    splitCharsOnSlash l = [l] := by
  induction l with
  | nil => rfl
  | cons c cs ih =>
    simp only [List.contains_cons, Bool.or_eq_false_iff] at h
    have hc : ¬ c = '/' := by
      intro hh
      subst hh
      simp at h
    rw [show splitCharsOnSlash (c :: cs) =
      (c :: (splitCharsOnSlash cs).headD []) :: (splitCharsOnSlash cs).tail
      from by simp [splitCharsOnSlash, hc]]
    rw [ih h.2]
    rfl

theorem splitOnSlash_no_slash (s : String) (h : containsChar s '/' = false) :
    splitOnSlash s = [s] := by
  unfold splitOnSlash
  rw [splitCharsOnSlash_no_slash s.data (by simpa [containsChar] using h)]
  simp [string_mk_data]

theorem splitOnSlash_ne_nil (s : String) : splitOnSlash s ≠ [] := by
  unfold splitOnSlash
  simp [splitCharsOnSlash_ne_nil]

theorem renderChars_splitChars (l : List Char) :
    renderChars (splitCharsOnSlash l) = l := by
  induction l with
  | nil => rfl
  | cons c cs ih =>
    obtain ⟨a, as, hr⟩ : ∃ a as, splitCharsOnSlash cs = a :: as := by
      cases hh : splitCharsOnSlash cs with
      | nil => exact absurd hh (splitCharsOnSlash_ne_nil cs)
      | cons a as => exact ⟨a, as, rfl⟩
    by_cases hc : c = '/'
    · subst hc
      rw [show splitCharsOnSlash ('/' :: cs) = [] :: splitCharsOnSlash cs
        from by simp [splitCharsOnSlash]]
      rw [hr] at ih ⊢
      rw [show renderChars ([] :: a :: as) = [] ++ '/' :: renderChars (a :: as)
        from rfl]
      rw [ih]
      rfl
    · rw [show splitCharsOnSlash (c :: cs) =
        (c :: (splitCharsOnSlash cs).headD []) :: (splitCharsOnSlash cs).tail
        from by simp [splitCharsOnSlash, hc]]
      rw [hr] at ih ⊢
      simp only [List.headD_cons, List.tail_cons]
      cases as with
      | nil =>
        rw [show renderChars [a] = a from rfl] at ih
        rw [show renderChars [c :: a] = c :: a from rfl, ih]
      | cons b bs =>
        rw [show renderChars (a :: b :: bs) = a ++ '/' :: renderChars (b :: bs)
          from rfl] at ih
        rw [show renderChars ((c :: a) :: b :: bs) =
          (c :: a) ++ '/' :: renderChars (b :: bs) from rfl]
        rw [List.cons_append, ih]

theorem renderPath_splitOnSlash (s : String) :
    renderPath (splitOnSlash s) = s := by
  unfold renderPath splitOnSlash
  rw [List.map_map]
  rw [show (String.data ∘ String.mk) = id from rfl, List.map_id]
  rw [renderChars_splitChars, string_mk_data]

theorem normStep_clean (acc : List String) (s : String)
    (h : cleanSeg s = true) :
    normStep acc s = acc ++ [s] := by
  unfold cleanSeg at h
  simp only [Bool.and_eq_true, Bool.not_eq_true'] at h
  obtain ⟨⟨⟨h1, h2⟩, h3⟩, h4⟩ := h
  simp [normStep, h1, h2, h3]

theorem foldl_normStep_clean (l : List String) (acc : List String)
    (h : ∀ s ∈ l, cleanSeg s = true) :
    l.foldl normStep acc = acc ++ l := by
  induction l generalizing acc with
  | nil => simp
  | cons s rest ih =>
    rw [List.foldl_cons, normStep_clean acc s (h s (by simp))]
    rw [ih (acc ++ [s]) (fun x hx => h x (by simp [hx]))]
    simp

theorem normSegs_clean (l : List String) (h : ∀ s ∈ l, cleanSeg s = true) :
    normSegs l = l := by
  unfold normSegs
  rw [foldl_normStep_clean l [] h]
  simp

theorem renderChars_append (l1 l2 : List (List Char)) (h1 : l1 ≠ [])
    (h2 : l2 ≠ []) :
    renderChars (l1 ++ l2) = renderChars l1 ++ '/' :: renderChars l2 := by
  induction l1 with
  | nil => exact absurd rfl h1
  | cons s rest ih =>
    cases rest with
    | nil =>
      cases l2 with
      | nil => exact absurd rfl h2
      | cons b bs => rfl
    | cons a as =>
      have hx : (a :: as) ++ l2 = a :: (as ++ l2) := rfl
      rw [show ((s :: a :: as) ++ l2) = s :: ((a :: as) ++ l2) from rfl]
      rw [show renderChars (s :: ((a :: as) ++ l2)) =
        s ++ '/' :: renderChars ((a :: as) ++ l2) from by rw [hx]; rfl]
      rw [ih (by simp)]
      rw [show renderChars (s :: a :: as) = s ++ '/' :: renderChars (a :: as)
        from rfl]
      simp [List.append_assoc]

theorem renderPath_append (l1 l2 : List String) (h1 : l1 ≠ []) (h2 : l2 ≠ []) :
    renderPath (l1 ++ l2) = renderPath l1 ++ "/" ++ renderPath l2 := by
  unfold renderPath
  rw [List.map_append,
    renderChars_append _ _ (by simpa using h1) (by simpa using h2)]
  apply String.ext
  simp [String.data_append]

theorem renderPath_pair (n f : String) :
    renderPath [n, f] = n ++ "/" ++ f := by
  apply String.ext
  simp [renderPath, renderChars, String.data_append]

theorem cleanSeg_no_slash (s : String) (h : cleanSeg s = true) :
    containsChar s '/' = false := by
  unfold cleanSeg at h
  simp only [Bool.and_eq_true, Bool.not_eq_true'] at h
  exact h.2

theorem pathJoin_clean (p n f : String)
    (hp : ∀ s ∈ splitOnSlash p, cleanSeg s = true)
    (hn : cleanSeg n = true) (hf2 : cleanSeg f = true) :
    pathJoin [p, n, f] = p ++ "/" ++ n ++ "/" ++ f := by
  simp only [pathJoin]
  rw [show ([p, n, f].map splitOnSlash).flatten = splitOnSlash p ++ [n, f]
    from by
      rw [List.map_cons, List.map_cons, List.map_cons, List.map_nil,
        splitOnSlash_no_slash n (cleanSeg_no_slash n hn),
        splitOnSlash_no_slash f (cleanSeg_no_slash f hf2)]
      simp]
  have hall : ∀ s ∈ splitOnSlash p ++ [n, f], cleanSeg s = true := by
    intro s hs
    rcases List.mem_append.mp hs with h | h
    · exact hp s h
    · rcases List.mem_cons.mp h with h | h
      · subst h; exact hn
      · rcases List.mem_cons.mp h with h | h
        · subst h; exact hf2
        · cases h
  rw [normSegs_clean _ hall]
  rw [if_neg (by simp)]
  rw [renderPath_append _ _ (splitOnSlash_ne_nil p) (by simp),
    renderPath_splitOnSlash, renderPath_pair]
  simp [String.append_assoc]

/-- C7: for a non-glob path, `resolveComponents` returns one group per
non-hidden immediate subdirectory, named after it verbatim, with
`source = <path>/<subdir>/<mainLanguage>.json` and
`fileMask = <path>/<subdir>/*.json`, in directory-listing order (and no
warnings).  The path and the directory-entry names are clean path
segments (as `readdir` and the action configuration produce). -/
theorem direct_path_resolution (fsys : FileSystem)
    (keysetsPath mainLanguage : String) (dirents : List Dirent)
    (hglob : isGlobPattern keysetsPath = false)
    (hfs : fsys.directDirents = .ok dirents)
    (hp : ∀ s ∈ splitOnSlash keysetsPath, cleanSeg s = true)
    (hnames : ∀ d ∈ dirents, cleanSeg d.name = true)
    (hlang : cleanSeg (mainLanguage ++ ".json") = true) :
    resolveComponents fsys keysetsPath mainLanguage =
      .ok ((dirents.filter fun d => d.isDir && !jsStartsWithDot d.name).map
        fun d =>
          { name := d.name
          , source := keysetsPath ++ "/" ++ d.name ++ "/" ++ mainLanguage ++
              ".json"
          , fileMask := keysetsPath ++ "/" ++ d.name ++ "/*.json" }, []) := by
  unfold resolveComponents
  rw [if_neg (by simp [hglob]), hfs]
  have hbody : resolveComponentsDirect keysetsPath mainLanguage dirents =
      (dirents.filter fun d => d.isDir && !jsStartsWithDot d.name).map
        fun d =>
          { name := d.name
          , source := keysetsPath ++ "/" ++ d.name ++ "/" ++ mainLanguage ++
              ".json"
          , fileMask := keysetsPath ++ "/" ++ d.name ++ "/*.json" } := by
    unfold resolveComponentsDirect
    apply List.map_congr_left
    intro d hd
    have hdc : cleanSeg d.name = true := hnames d (List.mem_filter.mp hd).1
    rw [pathJoin_clean _ _ _ hp hdc hlang,
      pathJoin_clean _ _ _ hp hdc (by decide)]
    rw [show ("/*.json" : String) = "/" ++ "*.json" from rfl]
    simp [String.append_assoc]
  show Except.ok (resolveComponentsDirect keysetsPath mainLanguage dirents,
    ([] : List String)) = _
  rw [hbody]

/-- Concrete filesystem for the direct-path witness. -/
def fsysDirectEx : FileSystem :=
  { globMatches := []
  , directDirents := .ok [{ name := "component1", isDir := true },
      { name := ".hidden", isDir := true },
      { name := "notes.txt", isDir := false },
      { name := "component2", isDir := true }] }

/-- Witness for C7 at a concrete direct path. -/
theorem direct_path_resolution_witness :
    resolveComponents fsysDirectEx "keysets" "en" =
      .ok ([{ name := "component1", source := "keysets/component1/en.json"
            , fileMask := "keysets/component1/*.json" },
            { name := "component2", source := "keysets/component2/en.json"
            , fileMask := "keysets/component2/*.json" }], []) := by
  have h := direct_path_resolution fsysDirectEx "keysets" "en"
    [{ name := "component1", isDir := true },
     { name := ".hidden", isDir := true },
     { name := "notes.txt", isDir := false },
     { name := "component2", isDir := true }]
    (by decide) rfl (by decide) (by decide) (by decide)
  rw [h]
  rfl

theorem getD_mem_of_lt {α : Type} (l : List α) (n : Nat) (d : α)
    (h : n < l.length) :
    l.getD n d ∈ l := by
  rw [List.getD_eq_getElem?_getD, List.getElem?_eq_getElem h]
  simp

/-- Spec-side definition, following the wording of the glob-naming claim:
the naming prefix is the path segment immediately after a segment
literally named "projects" when such a segment exists and is not last;
otherwise the matched directory's own parent segment (its second-to-last
path segment). -/
def specParentSegment (parts : List String) : String :=
  match parts.findIdx? (fun s => s == "projects") with
  | some i =>
    if i + 1 < parts.length then parts.getD (i + 1) ""
    else parts.getD (parts.length - 2) ""
  | none => parts.getD (parts.length - 2) ""

theorem parentDirName_eq_spec (dir : String)
    (hlen : 2 ≤ (splitOnSlash dir).length)
    (hclean : ∀ s ∈ splitOnSlash dir, cleanSeg s = true) :
    parentDirName dir = specParentSegment (splitOnSlash dir) := by
  simp only [parentDirName, specParentSegment]
  have hmem : (splitOnSlash dir).getD ((splitOnSlash dir).length - 2) "" ∈
      splitOnSlash dir :=
    getD_mem_of_lt _ _ _ (by omega)
  have hne2 : (((splitOnSlash dir).getD ((splitOnSlash dir).length - 2) "" !=
      "") = true) := by
    have hc := hclean _ hmem
    unfold cleanSeg at hc
    simp only [Bool.and_eq_true, Bool.not_eq_true'] at hc
    show (!((splitOnSlash dir).getD ((splitOnSlash dir).length - 2) "" == ""))
      = true
    rw [hc.1.1.1]
    rfl
  cases hidx : (splitOnSlash dir).findIdx? (fun s => s == "projects") with
  | some i =>
    simp only []
    by_cases hi : i + 1 < (splitOnSlash dir).length
    · rw [if_pos hi, if_pos hi]
    · rw [if_neg hi, if_neg hi, if_pos hlen, if_pos hne2]
  | none =>
    simp only []
    rw [if_pos hlen, if_pos hne2]

/-- C6: for a glob-matched directory (a clean relative path of at least
two segments) each non-hidden immediate subdirectory produces exactly
one group named `<parentSegment>_<subdirName>`, where the parent segment
is the segment after a segment literally named "projects" when one
exists and is not last, and the directory's own parent segment
otherwise. -/
theorem glob_component_naming (mainLanguage dir : String)
    (dirents : List Dirent)
    (hlen : 2 ≤ (splitOnSlash dir).length)
    (hclean : ∀ s ∈ splitOnSlash dir, cleanSeg s = true)
    (hnames : ∀ d ∈ dirents, cleanSeg d.name = true)
    (hlang : cleanSeg (mainLanguage ++ ".json") = true) :
    globDirComponents mainLanguage dir dirents =
      (dirents.filter fun d => d.isDir && !jsStartsWithDot d.name).map fun d =>
        { name := specParentSegment (splitOnSlash dir) ++ "_" ++ d.name
        , source := dir ++ "/" ++ d.name ++ "/" ++ mainLanguage ++ ".json"
        , fileMask := dir ++ "/" ++ d.name ++ "/*.json" } := by
  unfold globDirComponents
  rw [parentDirName_eq_spec dir hlen hclean]
  apply List.map_congr_left
  intro d hd
  have hdc : cleanSeg d.name = true := hnames d (List.mem_filter.mp hd).1
  rw [pathJoin_clean _ _ _ hclean hdc hlang,
    pathJoin_clean _ _ _ hclean hdc (by decide)]
  rw [show ("/*.json" : String) = "/" ++ "*.json" from rfl]
  simp [String.append_assoc]

/-- Witness for C6 at the example from the claim: matching
`projects/project-a/src/i18n-keysets` with subdirectory `component1`
produces the name `project-a_component1`. -/
theorem glob_component_naming_witness :
    globDirComponents "en" "projects/project-a/src/i18n-keysets"
        [{ name := "component1", isDir := true }] =
      [{ name := "project-a_component1"
       , source := "projects/project-a/src/i18n-keysets/component1/en.json"
       , fileMask :=
          "projects/project-a/src/i18n-keysets/component1/*.json" }] := by
  rw [glob_component_naming "en" "projects/project-a/src/i18n-keysets"
    [{ name := "component1", isDir := true }] (by decide) (by decide)
    (by decide) (by decide)]
  decide
